import Mathlib

/-
Verification of the response-compression middleware of casualjim/middlewares
(compress.go: CompressHandlerLevel, gzipPoolIndex, flatePoolIndex and the
httpsnoop Write/WriteHeader/Push hooks installed per request).

The Go code is shallowly embedded: compression levels are Int, HTTP headers
are association lists from key to a list of values (Go's http.Header is
map[string][]string; Get returns the first value or ""), the per-response
mutable state of the interceptor (header map, sticky streaming flag, codec
sink, bytes routed to the raw writer vs into the codec, forwarded commits)
is an explicit record threaded through the hook functions.
-/

set_option autoImplicit false

namespace Middlewares

/-! ### Compression level constants

Constants of klauspost/compress gzip and flate (identical to the standard
library): NoCompression = 0, BestSpeed = 1, BestCompression = 9,
DefaultCompression = -1. -/

def gzipNoCompression : Int := 0

def gzipBestSpeed : Int := 1

def gzipBestCompression : Int := 9

def gzipDefaultCompression : Int := -1

def flateBestSpeed : Int := 1

def flateBestCompression : Int := 9

def flateDefaultCompression : Int := -1

/-- Size of the `gzipWriterPools` array:
`gzip.BestCompression - gzip.BestSpeed + 2` (one pool per explicit level
plus one slot for the default level), so valid indices are `0 ≤ i < 10`. -/
def gzipPoolCount : Int := gzipBestCompression - gzipBestSpeed + 2

/-- Size of the `flateWriterPools` array:
`flate.BestCompression - flate.BestSpeed + 2`. -/
def flatePoolCount : Int := flateBestCompression - flateBestSpeed + 2

/-- `gzipPoolIndex` from compress.go: maps a compression level to its index
into `gzipWriterPools`; `gzip.DefaultCompression == -1` is special-cased to
the slot immediately after the best-compression slot. -/
def gzipPoolIndex (level : Int) : Int :=
  if level = gzipDefaultCompression then gzipBestCompression - gzipBestSpeed + 1
  else level - gzipBestSpeed

/-- `flatePoolIndex` from compress.go, same shape as `gzipPoolIndex`. -/
def flatePoolIndex (level : Int) : Int :=
  if level = flateDefaultCompression then flateBestCompression - flateBestSpeed + 1
  else level - flateBestSpeed

/-- The level guard at the top of `CompressHandlerLevel`:
`if level < gzip.DefaultCompression || level > gzip.BestCompression then
level = gzip.DefaultCompression`. It is the only normalization performed
before the pool lookups of both algorithms. -/
def compressNormalizeLevel (level : Int) : Int :=
  if level < gzipDefaultCompression ∨ gzipBestCompression < level then
    gzipDefaultCompression
  else level

/-- The valid gzip level domain for which a writer pool exists: the default
sentinel plus the explicit range `[BestSpeed, BestCompression]` (the two
`init` loops fill exactly these slots). -/
abbrev validGzipLevel (L : Int) : Prop :=
  L = gzipDefaultCompression ∨ (gzipBestSpeed ≤ L ∧ L ≤ gzipBestCompression)

/-- The valid flate level domain, filled by the flate `init` loops. -/
abbrev validFlateLevel (L : Int) : Prop :=
  L = flateDefaultCompression ∨ (flateBestSpeed ≤ L ∧ L ≤ flateBestCompression)

/-! ### C5 and C6: level normalization and the pool index mapping -/

/-- C6: for each algorithm the level-to-index function maps every explicit
level L in [BestSpeed, BestCompression] to L - BestSpeed, maps the
default-level sentinel to the slot immediately after the best-compression
slot, and is a bijection from the valid level domain
(default sentinel together with [BestSpeed, BestCompression]) onto the pool
array's index range [0, poolCount). -/
theorem C6_pool_index_bijection :
    (∀ L : Int, gzipBestSpeed ≤ L → L ≤ gzipBestCompression →
      gzipPoolIndex L = L - gzipBestSpeed)
    ∧ gzipPoolIndex gzipDefaultCompression = gzipBestCompression - gzipBestSpeed + 1
    ∧ (∀ L1 L2 : Int, validGzipLevel L1 → validGzipLevel L2 →
        gzipPoolIndex L1 = gzipPoolIndex L2 → L1 = L2)
    ∧ (∀ i : Int, 0 ≤ i → i < gzipPoolCount →
        ∃ L : Int, validGzipLevel L ∧ gzipPoolIndex L = i)
    ∧ (∀ L : Int, validGzipLevel L →
        0 ≤ gzipPoolIndex L ∧ gzipPoolIndex L < gzipPoolCount)
    ∧ (∀ L : Int, flateBestSpeed ≤ L → L ≤ flateBestCompression →
      flatePoolIndex L = L - flateBestSpeed)
    ∧ flatePoolIndex flateDefaultCompression = flateBestCompression - flateBestSpeed + 1
    ∧ (∀ L1 L2 : Int, validFlateLevel L1 → validFlateLevel L2 →
        flatePoolIndex L1 = flatePoolIndex L2 → L1 = L2)
    ∧ (∀ i : Int, 0 ≤ i → i < flatePoolCount →
        ∃ L : Int, validFlateLevel L ∧ flatePoolIndex L = i)
    ∧ (∀ L : Int, validFlateLevel L →
        0 ≤ flatePoolIndex L ∧ flatePoolIndex L < flatePoolCount) := by
  refine ⟨?_, by decide, ?_, ?_, ?_, ?_, by decide, ?_, ?_, ?_⟩
  · intro L h1 h2
    simp only [gzipPoolIndex, gzipDefaultCompression, gzipBestSpeed,
      gzipBestCompression] at *
    split_ifs <;> omega
  · intro L1 L2 v1 v2 heq
    simp only [gzipPoolIndex, gzipDefaultCompression, gzipBestSpeed,
      gzipBestCompression, validGzipLevel] at *
    split_ifs at heq <;> omega
  · intro i h0 hlt
    refine ⟨if i = gzipBestCompression - gzipBestSpeed + 1 then
      gzipDefaultCompression else i + gzipBestSpeed, ?_, ?_⟩ <;>
      simp only [gzipPoolIndex, gzipDefaultCompression, gzipBestSpeed,
        gzipBestCompression, gzipPoolCount, validGzipLevel] at * <;>
      split_ifs <;> omega
  · intro L hv
    simp only [gzipPoolIndex, gzipDefaultCompression, gzipBestSpeed,
      gzipBestCompression, gzipPoolCount, validGzipLevel] at *
    split_ifs <;> omega
  · intro L h1 h2
    simp only [flatePoolIndex, flateDefaultCompression, flateBestSpeed,
      flateBestCompression] at *
    split_ifs <;> omega
  · intro L1 L2 v1 v2 heq
    simp only [flatePoolIndex, flateDefaultCompression, flateBestSpeed,
      flateBestCompression, validFlateLevel] at *
    split_ifs at heq <;> omega
  · intro i h0 hlt
    refine ⟨if i = flateBestCompression - flateBestSpeed + 1 then
      flateDefaultCompression else i + flateBestSpeed, ?_, ?_⟩ <;>
      simp only [flatePoolIndex, flateDefaultCompression, flateBestSpeed,
        flateBestCompression, flatePoolCount, validFlateLevel] at * <;>
      split_ifs <;> omega
  · intro L hv
    simp only [flatePoolIndex, flateDefaultCompression, flateBestSpeed,
      flateBestCompression, flatePoolCount, validFlateLevel] at *
    split_ifs <;> omega

/-- C6 witness: the theorem applied at concrete inputs: explicit level 5 maps
to index 4, the injectivity instance at 5 and 5, and a surjectivity instance
producing a preimage of index 9. -/
theorem C6_pool_index_bijection_witness :
    gzipPoolIndex 5 = 5 - gzipBestSpeed
    ∧ flatePoolIndex flateDefaultCompression
        = flateBestCompression - flateBestSpeed + 1
    ∧ (0 : Int) ≤ gzipPoolIndex 5 ∧ gzipPoolIndex 5 < gzipPoolCount :=
  ⟨C6_pool_index_bijection.1 5 (by decide) (by decide),
   C6_pool_index_bijection.2.2.2.2.2.2.1,
   C6_pool_index_bijection.2.2.2.2.1 5 (Or.inr (by decide))⟩

/-- C5 counterexample: level 0 (`gzip.NoCompression`) lies outside the valid
level domain (no pool slot exists for it), yet the guard of
`CompressHandlerLevel` leaves it unchanged, and the subsequent pool lookup
uses index `0 - BestSpeed = -1`, outside the pool's index range, instead of
the default level's slot. -/
theorem C5_counterexample :
    ¬ validGzipLevel gzipNoCompression
    ∧ compressNormalizeLevel gzipNoCompression = gzipNoCompression
    ∧ compressNormalizeLevel gzipNoCompression ≠ gzipDefaultCompression
    ∧ gzipPoolIndex (compressNormalizeLevel gzipNoCompression) = -1
    ∧ ¬ (0 ≤ gzipPoolIndex (compressNormalizeLevel gzipNoCompression)) := by
  decide

/-- C5 (amended): every level strictly below DefaultCompression (-1) or
strictly above BestCompression (9) is rewritten to the default level by the
single shared guard before any pool lookup (the gzip and flate constants
coincide, so one guard covers both algorithms), and the rewritten level is a
valid pool level whose index is in range for both pools. Level 0
(NoCompression) is not covered: it passes the guard unchanged and its pool
index is out of range (see the counterexample). -/
theorem C5_normalize_out_of_range (level : Int)
    (hout : level < gzipDefaultCompression ∨ gzipBestCompression < level) :
    compressNormalizeLevel level = gzipDefaultCompression
    ∧ validGzipLevel (compressNormalizeLevel level)
    ∧ validFlateLevel (compressNormalizeLevel level)
    ∧ 0 ≤ gzipPoolIndex (compressNormalizeLevel level)
    ∧ gzipPoolIndex (compressNormalizeLevel level) < gzipPoolCount
    ∧ 0 ≤ flatePoolIndex (compressNormalizeLevel level)
    ∧ flatePoolIndex (compressNormalizeLevel level) < flatePoolCount := by
  have hn : compressNormalizeLevel level = gzipDefaultCompression := by
    unfold compressNormalizeLevel
    exact if_pos hout
  rw [hn]
  exact ⟨rfl, by decide, by decide, by decide, by decide, by decide, by decide⟩

/-- C5 amended witness: the out-of-range level 42 is rewritten to the default
level. -/
theorem C5_normalize_out_of_range_witness :
    compressNormalizeLevel 42 = gzipDefaultCompression :=
  (C5_normalize_out_of_range 42 (Or.inr (by decide))).1

/-! ### Strings: Go's strings.Split on ",", strings.TrimSpace,
strings.Contains -/

/-- Whitespace predicate of Go's `unicode.IsSpace` restricted to its Latin-1
table (tab, newline, vertical tab, form feed, carriage return, space, NEL,
no-break space); the tokens compared against are plain ASCII so the higher
Unicode space classes never matter here. -/
def isGoSpace (c : Char) : Bool :=
  c = ' ' || c = '\t' || c = '\n' || c = '\r' ||
  c = Char.ofNat 11 || c = Char.ofNat 12 ||
  c = Char.ofNat 0x85 || c = Char.ofNat 0xA0

/-- Go's `strings.TrimSpace`: drop leading and trailing whitespace. -/
def goTrim (s : String) : String :=
  ⟨((s.data.dropWhile isGoSpace).reverse.dropWhile isGoSpace).reverse⟩

/-- Go's `strings.Split(s, ",")` on the character list: splitting the empty
string yields one empty field, exactly as in Go. -/
def splitCommaList : List Char → List (List Char)
  | [] => [[]]
  | c :: cs =>
    if c = ',' then [] :: splitCommaList cs
    else
      match splitCommaList cs with
      | [] => [[c]]
      | t :: ts => (c :: t) :: ts

/-- Go's `strings.Split(s, ",")`. -/
def goSplitComma (s : String) : List String :=
  (splitCommaList s.data).map fun l => ⟨l⟩

/-- List-of-characters version of "needle occurs at the front". -/
def leadsWith : List Char → List Char → Bool
  | [], _ => true
  | _ :: _, [] => false
  | a :: as, b :: bs => a == b && leadsWith as bs

/-- List-of-characters version of substring occurrence. -/
def hasSubList (needle : List Char) : List Char → Bool
  | [] => leadsWith needle []
  | c :: cs => leadsWith needle (c :: cs) || hasSubList needle cs

/-- Go's `strings.Contains(hay, needle)`. -/
def strContains (hay needle : String) : Bool :=
  hasSubList needle.data hay.data

/-! ### Headers: Go's http.Header (map from canonical key to value list) -/

/-- A response or push-options header map: association list from key to the
list of values for that key. A Go map has at most one entry per key; the
operations below implement textproto's Get/Set/Add/Del on such lists. -/
abbrev Header := List (String × List String)

/-- The value list stored under a key, if any (Go `h[k]`). -/
def hfind : Header → String → Option (List String)
  | [], _ => none
  | (k', vs) :: rest, k => if k' = k then some vs else hfind rest k

/-- textproto `Get`: first value under the key, or "" when the key is absent
or its value list is empty. -/
def hget (h : Header) (k : String) : String :=
  match hfind h k with
  | some (v :: _) => v
  | _ => ""

/-- textproto `Del`: remove the entry for the key. -/
def hdel : Header → String → Header
  | [], _ => []
  | (k', vs) :: rest, k =>
    if k' = k then hdel rest k else (k', vs) :: hdel rest k

/-- textproto `Set`: replace the entry for the key with a single value. -/
def hset (h : Header) (k v : String) : Header :=
  (k, [v]) :: hdel h k

/-- textproto `Add`: append the value to the key's value list, creating the
entry when absent. -/
def hadd : Header → String → String → Header
  | [], k, v => [(k, [v])]
  | (k', vs) :: rest, k, v =>
    if k' = k then (k', vs ++ [v]) :: rest else (k', vs) :: hadd rest k v

theorem hfind_hdel_self (h : Header) (k : String) : hfind (hdel h k) k = none := by
  induction h with
  | nil => rfl
  | cons p rest ih =>
    obtain ⟨k', vs⟩ := p
    by_cases hk : k' = k
    · simpa [hdel, hk] using ih
    · simp [hdel, hfind, hk, ih]

theorem hfind_hdel_ne (h : Header) (k k' : String) (hne : k' ≠ k) :
    hfind (hdel h k) k' = hfind h k' := by
  have hne' : k ≠ k' := fun he => hne he.symm
  induction h with
  | nil => rfl
  | cons p rest ih =>
    obtain ⟨k0, vs⟩ := p
    by_cases hk : k0 = k
    · subst hk
      simp [hdel, hfind, hne', ih]
    · simp [hdel, hfind, hk, ih]

theorem hfind_hset_self (h : Header) (k v : String) :
    hfind (hset h k v) k = some [v] := by
  simp [hset, hfind]

theorem hfind_hset_ne (h : Header) (k v k' : String) (hne : k' ≠ k) :
    hfind (hset h k v) k' = hfind h k' := by
  have : k ≠ k' := fun he => hne he.symm
  simp [hset, hfind, this, hfind_hdel_ne h k k' hne]

theorem hfind_hadd_ne (h : Header) (k v : String) (k' : String) (hne : k' ≠ k) :
    hfind (hadd h k v) k' = hfind h k' := by
  have hne' : k ≠ k' := fun he => hne he.symm
  induction h with
  | nil => simp [hadd, hfind, hne']
  | cons p rest ih =>
    obtain ⟨k0, vs⟩ := p
    by_cases hk : k0 = k
    · subst hk
      simp [hadd, hfind, hne']
    · simp [hadd, hfind, hk, ih]

theorem hfind_hadd_none (h : Header) (k v : String) (hnone : hfind h k = none) :
    hfind (hadd h k v) k = some [v] := by
  induction h with
  | nil => simp [hadd, hfind]
  | cons p rest ih =>
    obtain ⟨k0, vs⟩ := p
    by_cases hk : k0 = k
    · simp [hfind, hk] at hnone
    · simp [hfind, hk] at hnone
      simp [hadd, hfind, hk, ih hnone]

theorem hget_of_hfind_none (h : Header) (k : String) (hnone : hfind h k = none) :
    hget h k = "" := by
  simp [hget, hnone]

/-! ### Encoding negotiation (the token loop of CompressHandlerLevel) -/

/-- The negotiated response encoding. -/
inductive Encoding where
  | gzip
  | deflate
deriving DecidableEq, Repr

/-- The token the middleware writes into Content-Encoding. -/
def encName : Encoding → String
  | Encoding.gzip => "gzip"
  | Encoding.deflate => "deflate"

/-- One iteration of the token loop: `switch strings.TrimSpace(enc)` with
cases exactly "gzip" and "deflate" (case-sensitive). -/
def tokenEncoding (t : String) : Option Encoding :=
  if goTrim t = "gzip" then some Encoding.gzip
  else if goTrim t = "deflate" then some Encoding.deflate
  else none

/-- The `for enc := range strings.Split(header, ",")` loop with `break L` in
both matched cases: the first token matching either case wins. -/
def negotiateEncoding (accept : String) : Option Encoding :=
  (goSplitComma accept).findSome? tokenEncoding

/-- Per-request outcome of the negotiation prologue (lines 170-296): which
branch ran, the response headers after the branch's Set/Add calls, whether
the response writer was decorated with hooks, and which codec instances were
taken from a pool (the matching defer returns exactly these). -/
structure SetupResult where
  encoding : Option Encoding
  header : Header
  wrapped : Bool
  acquired : List Encoding
deriving DecidableEq, Repr

/-- The negotiation prologue of `CompressHandlerLevel`: when no token
matches, the loop falls through and the handler is invoked with the original
writer and untouched headers; when a token matches, the branch sets
Content-Encoding, adds Vary: Accept-Encoding, acquires one codec from the
pool and wraps the writer, then breaks out of the loop. -/
def compressSetup (accept : String) (h : Header) : SetupResult :=
  match negotiateEncoding accept with
  | none => ⟨none, h, false, []⟩
  | some e =>
      ⟨some e,
       hadd (hset h "Content-Encoding" (encName e)) "Vary" "Accept-Encoding",
       true, [e]⟩

theorem findSome_append_of_none {α β : Type} (f : α → Option β)
    (l1 : List α) (l2 : List α) (h : ∀ u ∈ l1, f u = none) :
    (l1 ++ l2).findSome? f = l2.findSome? f := by
  induction l1 with
  | nil => rfl
  | cons a as ih =>
    have ha : f a = none := h a (List.mem_cons_self a as)
    simp only [List.cons_append, List.findSome?_cons, ha]
    exact ih fun u hu => h u (List.mem_cons_of_mem a hu)

theorem findSome_isSome_iff {α β : Type} (f : α → Option β) (l : List α) :
    ((l.findSome? f).isSome = true) ↔ ∃ t ∈ l, (f t).isSome = true := by
  induction l with
  | nil => simp
  | cons a as ih =>
    cases hfa : f a with
    | none => simp [List.findSome?_cons, hfa, ih]
    | some b => simp [List.findSome?_cons, hfa]

theorem tokenEncoding_isSome_iff (t : String) :
    ((tokenEncoding t).isSome = true) ↔
      (goTrim t = "gzip" ∨ goTrim t = "deflate") := by
  unfold tokenEncoding
  split_ifs with h1 h2 <;> simp_all

/-! ### C2: selection order between gzip and deflate -/

/-- C2 counterexample: for the header value "deflate,gzip", which contains
both tokens, the middleware selects deflate (the client's first supported
token), not gzip: the deflate branch runs and Content-Encoding is set to
"deflate". -/
theorem C2_counterexample :
    negotiateEncoding "deflate,gzip" = some Encoding.deflate
    ∧ negotiateEncoding "deflate,gzip" ≠ some Encoding.gzip
    ∧ hget (compressSetup "deflate,gzip" []).header "Content-Encoding"
        = "deflate" := by
  decide

/-- C2 (amended): the token loop selects the encoding of the first
comma-separated token, scanning left to right, whose trimmed value is
exactly "gzip" or "deflate"; when both tokens are present, the one appearing
first in the client's list wins (so gzip is selected only when a gzip token
precedes every deflate token, not regardless of order). -/
theorem C2_first_supported_token_wins (v : String) (l1 l2 : List String)
    (t : String) (e : Encoding)
    (hsplit : goSplitComma v = l1 ++ t :: l2)
    (hl1 : ∀ u ∈ l1, tokenEncoding u = none)
    (ht : tokenEncoding t = some e) :
    negotiateEncoding v = some e := by
  unfold negotiateEncoding
  rw [hsplit, findSome_append_of_none tokenEncoding l1 (t :: l2) hl1]
  simp [List.findSome?_cons, ht]

/-- C2 amended witness: in "identity, deflate, gzip" the first supported
token is deflate, and the theorem yields that deflate is negotiated. -/
theorem C2_first_supported_token_wins_witness :
    negotiateEncoding "identity, deflate, gzip" = some Encoding.deflate :=
  C2_first_supported_token_wins "identity, deflate, gzip"
    ["identity"] [" gzip"] " deflate" Encoding.deflate (by decide)
    (by
      intro u hu
      rw [List.mem_singleton] at hu
      subst hu
      decide)
    (by decide)

/-! ### C4: exact-token matching and the pass-through case -/

/-- C4: an encoding is selected if and only if some comma-separated token of
the Accept-Encoding value, after trimming surrounding whitespace, equals
case-sensitively the exact string "gzip" or "deflate"; the selected branch
is exactly the negotiated one; and for an absent or empty header (Go's
`Header.Get` returns "" in both cases) nothing is selected, the response
headers are untouched, no codec is acquired and the writer is not decorated,
so the handler's output reaches the original writer unmodified. -/
theorem C4_selection_characterization (v : String) (h : Header) :
    (((negotiateEncoding v).isSome = true) ↔
      ∃ t ∈ goSplitComma v, goTrim t = "gzip" ∨ goTrim t = "deflate")
    ∧ (compressSetup v h).encoding = negotiateEncoding v
    ∧ (negotiateEncoding v = none →
        compressSetup v h = ⟨none, h, false, []⟩)
    ∧ compressSetup "" h = ⟨none, h, false, []⟩ := by
  refine ⟨?_, ?_, ?_, ?_⟩
  · unfold negotiateEncoding
    rw [findSome_isSome_iff]
    exact exists_congr fun t =>
      and_congr Iff.rfl (tokenEncoding_isSome_iff t)
  · cases he : negotiateEncoding v <;> simp [compressSetup, he]
  · intro he
    simp [compressSetup, he]
  · have he : negotiateEncoding "" = none := by decide
    simp [compressSetup, he]

/-- C4 witness: at the concrete header value "br, gzip " the theorem's
characterization holds and an encoding is indeed selected, while the
hypothesis-guarded conjunct is exercised at "identity". -/
theorem C4_selection_characterization_witness :
    (((negotiateEncoding "br, gzip ").isSome = true) ↔
      ∃ t ∈ goSplitComma "br, gzip ",
        goTrim t = "gzip" ∨ goTrim t = "deflate")
    ∧ compressSetup "identity" [] = ⟨none, [], false, []⟩ :=
  ⟨(C4_selection_characterization "br, gzip " []).1,
   (C4_selection_characterization "identity" []).2.2.1 (by decide)⟩

/-! ### The response writer interceptor (the httpsnoop Write and WriteHeader
hooks of the gzip branch; the deflate branch's hooks are textually identical
with the flate writer in place of the gzip writer) -/

/-- Per-response interceptor state: the shared header map (the wrapped
writer, the captured original writer `rrw` and the underlying writer all
expose the same map), the sticky `isStream` flag, whether the codec was
reset to `io.Discard`, the chunks passed to the original writer `rrw.Write`,
the chunks passed into the codec (`gzw.Write` resp. `fw.Write`), and the
status codes forwarded to the underlying `WriteHeader`. -/
structure RespState where
  header : Header
  isStream : Bool
  codecDiscard : Bool
  rawWrites : List String
  codecWrites : List String
  commits : List Int
deriving DecidableEq, Repr

/-- The content-type sniffing prefix of the Write hook:
`if h.Get("Content-Type") == "" then h.Set("Content-Type",
http.DetectContentType(b))`. `http.DetectContentType` is net/http library
code, so it enters the model as the abstract parameter `sniff`. -/
def sniffHeader (sniff : String → String) (h : Header) (b : String) : Header :=
  if hget h "Content-Type" = "" then hset h "Content-Type" (sniff b) else h

/-- The streaming condition of the Write hook, evaluated after sniffing:
`isStream || strings.Contains(Get("Content-Type"), "text/event-stream") ||
Get("Transfer-Encoding") == "chunked"`. -/
abbrev streamCheck (sniff : String → String) (s : RespState) (b : String) : Prop :=
  s.isStream = true
  ∨ strContains (hget (sniffHeader sniff s.header b) "Content-Type")
      "text/event-stream" = true
  ∨ hget (sniffHeader sniff s.header b) "Transfer-Encoding" = "chunked"

/-- The Write hook (lines 198-216 for gzip, 243-261 for deflate): sniff the
content type if absent; in the streaming branch set the sticky flag, reset
the codec onto `io.Discard`, delete Content-Encoding and Vary and write the
chunk to the original writer; otherwise delete Content-Length and write the
chunk into the codec. -/
def writeHook (sniff : String → String) (s : RespState) (b : String) : RespState :=
  if streamCheck sniff s b then
    { s with
      header := hdel (hdel (sniffHeader sniff s.header b) "Content-Encoding") "Vary",
      isStream := true,
      codecDiscard := true,
      rawWrites := s.rawWrites ++ [b] }
  else
    { s with
      header := hdel (sniffHeader sniff s.header b) "Content-Length",
      codecWrites := s.codecWrites ++ [b] }

/-- The WriteHeader hook (lines 192-197 for gzip, 237-242 for deflate):
delete Content-Length, then forward the status code to the underlying
commit. There is no guard around the forwarding. -/
def writeHeaderHook (s : RespState) (code : Int) : RespState :=
  { s with
    header := hdel s.header "Content-Length",
    commits := s.commits ++ [code] }

/-- A sequence of body writes through the Write hook. -/
def runWrites (sniff : String → String) (s : RespState) (bs : List String) : RespState :=
  bs.foldl (writeHook sniff) s

theorem writeHook_of_stream (sniff : String → String) (s : RespState)
    (b : String) (hs : s.isStream = true) :
    (writeHook sniff s b).isStream = true
    ∧ (writeHook sniff s b).codecWrites = s.codecWrites
    ∧ (writeHook sniff s b).rawWrites = s.rawWrites ++ [b] := by
  unfold writeHook
  rw [if_pos (Or.inl hs)]
  exact ⟨rfl, rfl, rfl⟩

theorem runWrites_of_stream (sniff : String → String) (bs : List String) :
    ∀ s : RespState, s.isStream = true →
      (runWrites sniff s bs).isStream = true
      ∧ (runWrites sniff s bs).codecWrites = s.codecWrites
      ∧ (runWrites sniff s bs).rawWrites = s.rawWrites ++ bs := by
  induction bs with
  | nil => intro s hs; exact ⟨hs, rfl, by simp [runWrites]⟩
  | cons b rest ih =>
    intro s hs
    have hstep := writeHook_of_stream sniff s b hs
    have hrec := ih (writeHook sniff s b) hstep.1
    have hfold : runWrites sniff s (b :: rest)
        = runWrites sniff (writeHook sniff s b) rest := rfl
    refine ⟨by rw [hfold]; exact hrec.1, ?_, ?_⟩
    · rw [hfold, hrec.2.1, hstep.2.1]
    · rw [hfold, hrec.2.2, hstep.2.2, List.append_assoc, List.singleton_append]

/-! ### C1: streaming classification is sticky and bypasses the codec -/

/-- C1: a body write is classified streaming exactly when the flag was
already true, the (possibly just sniffed) Content-Type contains
"text/event-stream", or Transfer-Encoding equals "chunked"; the flag is
sticky; on a streaming write the codec is reset to the discard sink, the
Content-Encoding and Vary entries are removed from the response header map,
and that chunk and every subsequent chunk is written to the original
undecorated writer, with nothing further entering the codec. -/
theorem C1_streaming_sticky_bypass (sniff : String → String) (s : RespState)
    (b : String) (rest : List String) :
    ((writeHook sniff s b).isStream = true ↔ streamCheck sniff s b)
    ∧ (s.isStream = true → streamCheck sniff s b)
    ∧ (streamCheck sniff s b →
        (writeHook sniff s b).codecDiscard = true
        ∧ hfind (writeHook sniff s b).header "Content-Encoding" = none
        ∧ hfind (writeHook sniff s b).header "Vary" = none
        ∧ (writeHook sniff s b).rawWrites = s.rawWrites ++ [b]
        ∧ (writeHook sniff s b).codecWrites = s.codecWrites)
    ∧ (¬ streamCheck sniff s b →
        (writeHook sniff s b).isStream = false
        ∧ (writeHook sniff s b).codecWrites = s.codecWrites ++ [b]
        ∧ (writeHook sniff s b).rawWrites = s.rawWrites)
    ∧ ((writeHook sniff s b).isStream = true →
        (runWrites sniff (writeHook sniff s b) rest).isStream = true
        ∧ (runWrites sniff (writeHook sniff s b) rest).codecWrites
            = (writeHook sniff s b).codecWrites
        ∧ (runWrites sniff (writeHook sniff s b) rest).rawWrites
            = (writeHook sniff s b).rawWrites ++ rest) := by
  refine ⟨?_, fun hs => Or.inl hs, ?_, ?_, ?_⟩
  · constructor
    · intro hafter
      by_cases hc : streamCheck sniff s b
      · exact hc
      · unfold writeHook at hafter
        rw [if_neg hc] at hafter
        exact Or.inl hafter
    · intro hc
      unfold writeHook
      rw [if_pos hc]
  · intro hc
    unfold writeHook
    rw [if_pos hc]
    refine ⟨rfl, ?_, ?_, rfl, rfl⟩
    · rw [hfind_hdel_ne _ "Vary" "Content-Encoding" (by decide)]
      exact hfind_hdel_self _ "Content-Encoding"
    · exact hfind_hdel_self _ "Vary"
  · intro hc
    unfold writeHook
    rw [if_neg hc]
    refine ⟨?_, rfl, rfl⟩
    show s.isStream = false
    cases hb : s.isStream
    · rfl
    · exact absurd (Or.inl hb) hc
  · intro hafter
    exact runWrites_of_stream sniff rest (writeHook sniff s b) hafter

/-- A constant stand-in for `http.DetectContentType`, used to instantiate
the abstract sniffing parameter at concrete inputs. -/
def constSniff : String → String := fun _ => "text/plain; charset=utf-8"

/-- A response that declared chunked transfer encoding before its first
write, with the negotiator's headers already applied. -/
def chunkedState : RespState :=
  ⟨[("Transfer-Encoding", ["chunked"]), ("Content-Type", ["text/plain"]),
    ("Content-Encoding", ["gzip"]), ("Vary", ["Accept-Encoding"])],
   false, false, [], [], []⟩

/-- C1 witness: for a concrete chunked response the theorem yields that the
first write switches the codec to the discard sink and that this chunk and
the following one reach the original writer. -/
theorem C1_streaming_sticky_bypass_witness :
    (writeHook constSniff chunkedState "chunk1").codecDiscard = true
    ∧ (runWrites constSniff (writeHook constSniff chunkedState "chunk1")
        ["chunk2"]).rawWrites = ["chunk1", "chunk2"] := by
  refine ⟨((C1_streaming_sticky_bypass constSniff chunkedState "chunk1"
    ["chunk2"]).2.2.1 (by decide)).1, ?_⟩
  have h := (C1_streaming_sticky_bypass constSniff chunkedState "chunk1"
    ["chunk2"]).2.2.2.2 (by decide)
  rw [h.2.2]
  decide

/-! ### C3: what each body write does to Content-Length -/

/-- A response that declared a content type, chunked transfer encoding and a
content length before its first write. -/
def c3State : RespState :=
  ⟨[("Content-Type", ["text/plain; charset=utf-8"]),
    ("Transfer-Encoding", ["chunked"]), ("Content-Length", ["9216"])],
   false, false, [], [], []⟩

/-- C3 counterexample: on a write classified streaming the chunk goes
directly to the original writer but the Content-Length header is NOT
removed: the `Del("Content-Length")` of the Write hook sits only in the
non-streaming branch, so after the write the header still carries 9216. -/
theorem C3_counterexample :
    (writeHook constSniff c3State "chunk1").isStream = true
    ∧ (writeHook constSniff c3State "chunk1").rawWrites = ["chunk1"]
    ∧ hget (writeHook constSniff c3State "chunk1").header "Content-Length"
        = "9216" := by
  decide

/-- C3 (amended): on each body write the hook first sets Content-Type by
sniffing the chunk when absent; if the response is classified streaming it
writes the chunk directly to the original writer and leaves Content-Length
untouched (the removal sits only in the other branch); otherwise it removes
Content-Length and writes the chunk into the active codec. -/
theorem C3_write_routing (sniff : String → String) (s : RespState) (b : String) :
    (hget s.header "Content-Type" = "" →
      hget (sniffHeader sniff s.header b) "Content-Type" = sniff b)
    ∧ (hget s.header "Content-Type" ≠ "" →
      sniffHeader sniff s.header b = s.header)
    ∧ (streamCheck sniff s b →
        (writeHook sniff s b).rawWrites = s.rawWrites ++ [b]
        ∧ hfind (writeHook sniff s b).header "Content-Length"
            = hfind s.header "Content-Length")
    ∧ (¬ streamCheck sniff s b →
        hfind (writeHook sniff s b).header "Content-Length" = none
        ∧ (writeHook sniff s b).codecWrites = s.codecWrites ++ [b]) := by
  have hsniff : ∀ k : String, k ≠ "Content-Type" →
      hfind (sniffHeader sniff s.header b) k = hfind s.header k := by
    intro k hk
    unfold sniffHeader
    split_ifs with hct
    · exact hfind_hset_ne _ _ _ _ hk
    · rfl
  refine ⟨?_, ?_, ?_, ?_⟩
  · intro hct
    unfold sniffHeader
    rw [if_pos hct]
    simp [hget, hfind_hset_self]
  · intro hct
    unfold sniffHeader
    rw [if_neg hct]
  · intro hc
    unfold writeHook
    rw [if_pos hc]
    refine ⟨rfl, ?_⟩
    rw [hfind_hdel_ne _ "Vary" "Content-Length" (by decide),
      hfind_hdel_ne _ "Content-Encoding" "Content-Length" (by decide)]
    exact hsniff "Content-Length" (by decide)
  · intro hc
    unfold writeHook
    rw [if_neg hc]
    exact ⟨hfind_hdel_self _ "Content-Length", rfl⟩

/-- A plain response: no streaming signal, a declared content length. -/
def plainState : RespState :=
  ⟨[("Content-Length", ["9216"])], false, false, [], [], []⟩

/-- C3 amended witness: for a concrete plain response the theorem yields
that the sniffed content type is recorded, Content-Length is removed and the
chunk enters the codec, and for the concrete chunked response that the chunk
bypasses the codec with Content-Length untouched. -/
theorem C3_write_routing_witness :
    hget (sniffHeader constSniff plainState.header "Gorilla!")
        "Content-Type" = "text/plain; charset=utf-8"
    ∧ hfind (writeHook constSniff plainState "Gorilla!").header
        "Content-Length" = none
    ∧ (writeHook constSniff plainState "Gorilla!").codecWrites = ["Gorilla!"]
    ∧ hfind (writeHook constSniff c3State "chunk1").header "Content-Length"
        = hfind c3State.header "Content-Length" := by
  refine ⟨(C3_write_routing constSniff plainState "Gorilla!").1 (by decide),
    ?_, ?_, ((C3_write_routing constSniff c3State "chunk1").2.2.1
      (by decide)).2⟩
  · exact ((C3_write_routing constSniff plainState "Gorilla!").2.2.2
      (by decide)).1
  · rw [((C3_write_routing constSniff plainState "Gorilla!").2.2.2
      (by decide)).2]
    decide

/-! ### C7: the WriteHeader hook forwards every commit attempt -/

/-- C7 counterexample: two WriteHeader calls through the hook forward two
commits to the underlying writer; the hook contains no idempotency guard,
so the second attempt is not a no-op of the interceptor. -/
theorem C7_counterexample :
    (writeHeaderHook (writeHeaderHook plainState 200) 500).commits
        = [200, 500]
    ∧ (writeHeaderHook (writeHeaderHook plainState 200) 500).commits
        ≠ [200] := by
  decide

/-- C7 (amended): on every WriteHeader call, first and later ones alike, the
hook removes the Content-Length header and then forwards the status code to
the underlying commit; in particular a second call is forwarded again, so
any single-commit idempotence is supplied by the underlying response
writer, not by this interceptor. -/
theorem C7_writeheader_forwards_every_call (s : RespState) (code code2 : Int) :
    (writeHeaderHook s code).commits = s.commits ++ [code]
    ∧ hfind (writeHeaderHook s code).header "Content-Length" = none
    ∧ (writeHeaderHook (writeHeaderHook s code) code2).commits
        = s.commits ++ [code, code2] := by
  refine ⟨rfl, hfind_hdel_self _ "Content-Length", ?_⟩
  show (s.commits ++ [code]) ++ [code2] = s.commits ++ [code, code2]
  rw [List.append_assoc]
  rfl

/-! ### The Push hook of the deflate branch (lines 262-287) -/

/-- Outcome of one call to the intercepted Push: the options object as the
caller can observe it after the call (`none` models a caller that passed a
nil pointer; `some none` a non-nil object whose Header map is nil), and
whether the returned error is the nil error. -/
structure PushResult where
  opts : Option (Option Header)
  errIsNil : Bool
deriving DecidableEq, Repr

/-- The Push hook: the hook discards the underlying push function (the
`httpsnoop.PushFunc` parameter is unnamed and never referenced), so the
model takes it as the unused parameter `underlying` together with the push
target. A nil options pointer gets a fresh local object that the caller
never sees; a nil Header map is replaced by a map carrying exactly
Accept-Encoding: gzip; a map whose Accept-Encoding reads empty gains the
value "gzip" via Add; otherwise the options are untouched. Every branch
returns the nil error. -/
def pushHook (_underlying : String → Option (Option Header) → Bool)
    (_target : String) (opts : Option (Option Header)) : PushResult :=
  match opts with
  | none => ⟨none, true⟩
  | some none => ⟨some (some [("Accept-Encoding", ["gzip"])]), true⟩
  | some (some h) =>
    if hget h "Accept-Encoding" = "" then
      ⟨some (some (hadd h "Accept-Encoding" "gzip")), true⟩
    else
      ⟨some (some h), true⟩

/-! ### C8: push options gain Accept-Encoding gzip only when absent -/

/-- C8: through the deflate-path Push hook, an options object whose header
map has no Accept-Encoding entry ends up with exactly one Accept-Encoding
entry holding the single value "gzip"; an options object with an existing
non-empty Accept-Encoding value is left unmodified, and a nil header map is
filled in (never overridden) with a map holding exactly
Accept-Encoding: gzip, all other entries being preserved in the Add case. -/
theorem C8_push_accept_encoding (underlying : String → Option (Option Header) → Bool)
    (target : String) (h : Header) :
    (hfind h "Accept-Encoding" = none →
      (pushHook underlying target (some (some h))).opts
          = some (some (hadd h "Accept-Encoding" "gzip"))
      ∧ hfind (hadd h "Accept-Encoding" "gzip") "Accept-Encoding"
          = some ["gzip"]
      ∧ ∀ k : String, k ≠ "Accept-Encoding" →
          hfind (hadd h "Accept-Encoding" "gzip") k = hfind h k)
    ∧ (pushHook underlying target (some none)).opts
        = some (some [("Accept-Encoding", ["gzip"])])
    ∧ (hget h "Accept-Encoding" ≠ "" →
        (pushHook underlying target (some (some h))).opts = some (some h)) := by
  refine ⟨?_, rfl, ?_⟩
  · intro hnone
    have hempty : hget h "Accept-Encoding" = "" :=
      hget_of_hfind_none h "Accept-Encoding" hnone
    simp only [pushHook]
    rw [if_pos hempty]
    exact ⟨rfl, hfind_hadd_none h "Accept-Encoding" "gzip" hnone,
      fun k hk => hfind_hadd_ne h "Accept-Encoding" "gzip" k hk⟩
  · intro hne
    simp only [pushHook]
    rw [if_neg hne]

/-- An underlying push function for the witnesses; accepting everything. -/
def acceptAllPush : String → Option (Option Header) → Bool := fun _ _ => true

/-- C8 witness: a header map carrying only a User-Agent entry gains exactly
Accept-Encoding: gzip, and a map already carrying Accept-Encoding: deflate
is left unmodified. -/
theorem C8_push_accept_encoding_witness :
    hfind (hadd [("User-Agent", ["Mozilla"])] "Accept-Encoding" "gzip")
        "Accept-Encoding" = some ["gzip"]
    ∧ (pushHook acceptAllPush "/style.css"
        (some (some [("Accept-Encoding", ["deflate"])]))).opts
        = some (some [("Accept-Encoding", ["deflate"])]) :=
  ⟨((C8_push_accept_encoding acceptAllPush "/style.css"
      [("User-Agent", ["Mozilla"])]).1 (by decide)).2.1,
   (C8_push_accept_encoding acceptAllPush "/style.css"
      [("Accept-Encoding", ["deflate"])]).2.2 (by decide)⟩

/-! ### C9: the hook never forwards a push and a nil options object stays
invisible -/

/-- C9: every call to the intercepted Push returns the nil error, its result
does not depend on the underlying push function or the target in any way
(the hook discards both, so no push is ever issued through the wrapped
writer), and in the nil-options branch the object constructed inside the
hook is never observable by the caller. -/
theorem C9_push_never_forwarded
    (u1 u2 : String → Option (Option Header) → Bool) (t1 t2 : String)
    (opts : Option (Option Header)) :
    pushHook u1 t1 opts = pushHook u2 t2 opts
    ∧ (pushHook u1 t1 opts).errIsNil = true
    ∧ (pushHook u1 t1 none).opts = none := by
  refine ⟨rfl, ?_, rfl⟩
  cases opts with
  | none => rfl
  | some o =>
    cases o with
    | none => rfl
    | some h =>
      simp only [pushHook]
      split_ifs <;> rfl

/-! ### C10: at most one branch of the token loop runs -/

/-- C10: the token scan stops at the first supported token, so per request
at most one of the gzip/deflate branches executes: at most one codec
instance is acquired (and, by the paired defer, released), and the
Content-Encoding response header is set at most once, to the single value
of the negotiated encoding, never to both. -/
theorem C10_at_most_one_branch (v : String) (h : Header) :
    (compressSetup v h).acquired.length ≤ 1
    ∧ ((compressSetup v h).encoding = none →
        compressSetup v h = ⟨none, h, false, []⟩)
    ∧ (∀ e : Encoding, (compressSetup v h).encoding = some e →
        hfind (compressSetup v h).header "Content-Encoding"
            = some [encName e]
        ∧ (compressSetup v h).acquired = [e]) := by
  cases he : negotiateEncoding v with
  | none =>
    refine ⟨by simp [compressSetup, he], fun _ => by simp [compressSetup, he],
      fun e henc => ?_⟩
    simp [compressSetup, he] at henc
  | some e0 =>
    refine ⟨by simp [compressSetup, he], fun hnone => ?_, fun e henc => ?_⟩
    · simp [compressSetup, he] at hnone
    · have he0 : e0 = e := by simpa [compressSetup, he] using henc
      subst he0
      refine ⟨?_, by simp [compressSetup, he]⟩
      simp only [compressSetup, he]
      rw [hfind_hadd_ne _ "Vary" "Accept-Encoding" "Content-Encoding"
        (by decide)]
      exact hfind_hset_self h "Content-Encoding" (encName e0)

/-- C10 witness: for the concrete header value "gzip,deflate" exactly the
gzip branch runs: one codec is acquired and Content-Encoding holds the
single value "gzip". -/
theorem C10_at_most_one_branch_witness :
    hfind (compressSetup "gzip,deflate" []).header "Content-Encoding"
        = some ["gzip"]
    ∧ (compressSetup "gzip,deflate" []).acquired = [Encoding.gzip] :=
  (C10_at_most_one_branch "gzip,deflate" []).2.2 Encoding.gzip (by decide)

end Middlewares
